import Mathlib

/-!
Verification of the crawl dispatch and extraction orchestration subsystem
(`src/steps/etl/crawl_links.py` and
`src/llm_engineering/application/crawlers/base.py`), shallowly embedded.

External collaborators (the crawler dispatcher, each crawler's `extract`,
the browser driver, and `urllib.parse.urlparse`) are modelled as explicit
parameters; Python exceptions are modelled with `Except String`.
-/

namespace LLMSTwin

/-! ## Data model: the per-domain metrics dictionary

`crawl_links` keeps `metadata : dict[str, dict[str, int]]` where each inner
dict has keys "successful" and "total" (both always set together by
`_add_to_metadata`).  We model the inner dict as a record of the two
counters (Python ints, hence `Int`) and the outer dict as an association
list in insertion order, which is how a Python dict behaves. -/

structure DomainRecord where
  successful : Int
  total : Int
deriving Repr, DecidableEq

abbrev Metadata : Type := List (String × DomainRecord)

/-- `metadata.get(domain)`: the value stored at the first (in a real dict,
only) entry whose key is `d`. -/
def lookupD (m : Metadata) (d : String) : Option DomainRecord :=
  (m.find? (fun p => p.1 == d)).map Prod.snd

/-- `metadata[domain] = r`: replace the entry keyed `d` in place, or append
a fresh entry at the end, exactly like assignment into a Python dict. -/
def setD (m : Metadata) (d : String) (r : DomainRecord) : Metadata :=
  match m with
  | [] => [(d, r)]
  | p :: rest => if p.1 == d then (d, r) :: rest else p :: setD rest d r

/-- Sum of the "total" counters over all entries of the metrics dict. -/
def sumTotal (m : Metadata) : Int :=
  match m with
  | [] => 0
  | p :: rest => p.2.total + sumTotal rest

/-- `_add_to_metadata(metadata, domain, successfull_crawl)` from
`src/steps/etl/crawl_links.py` lines 126-151: read the current counters
with default 0 (the `metadata[domain] = {}` initialisation makes the
subsequent `.get(..., 0)` reads return 0 for a fresh domain), then store
`successful + bool` and `total + 1`. -/
def _add_to_metadata (metadata : Metadata) (domain : String)
    (successfull_crawl : Bool) : Metadata :=
  let old := (lookupD metadata domain).getD ⟨0, 0⟩
  setD metadata domain
    ⟨old.successful + (if successfull_crawl then 1 else 0), old.total + 1⟩

/-- The domain keys of the metrics dict, in insertion order. -/
def keys (m : Metadata) : List String := m.map Prod.fst

/-- Well-formedness of the metrics dict: keys are distinct (it models a
dict) and every record satisfies `0 ≤ successful ≤ total`. -/
def WF (m : Metadata) : Prop :=
  (keys m).Nodup ∧ ∀ p ∈ m, 0 ≤ p.2.successful ∧ p.2.successful ≤ p.2.total

/-- Pointwise ordering of optional records, used to state that both
counters of every domain are monotonically non-decreasing across
updates. -/
def recLe : Option DomainRecord → Option DomainRecord → Prop
  | none, _ => True
  | some _, none => False
  | some r, some r2 => r.successful ≤ r2.successful ∧ r.total ≤ r2.total

/-! ## The orchestration loop

`CrawlerDispatcher.get_crawler` and each crawler's `extract` live outside
`src/`; they are modelled as functions returning `Except String _`
(`.error` = the Python call raised).  `urlparse(link).netloc` is the
imported standard-library call; it is likewise a parameter (CPython's
`urlparse` can raise `ValueError` on malformed IPv6 hosts). -/

structure Crawler (User : Type) where
  extract : String → User → Except String Unit

structure CrawlerDispatcher (User : Type) where
  get_crawler : String → Except String (Crawler User)

/-- `_crawl_link(dispatcher, link, user)` from
`src/steps/etl/crawl_links.py` lines 89-122.  Note the faithful placement
of the `try` block: `dispatcher.get_crawler(link)` (line 103) and
`urlparse(link).netloc` (line 107) run BEFORE the `try`, so an exception
from either propagates out of `_crawl_link`; only `crawler.extract`
(line 112) is guarded, its failure being logged and turned into
`(False, crawler_domain)`. -/
def _crawl_link {User : Type} (netloc : String → Except String String)
    (dispatcher : CrawlerDispatcher User) (link : String) (user : User) :
    Except String (Bool × String) :=
  match dispatcher.get_crawler link with
  | .error e => .error e
  | .ok crawler =>
    match netloc link with
    | .error e => .error e
    | .ok crawler_domain =>
      match crawler.extract link user with
      | .ok _ => .ok (true, crawler_domain)
      | .error _ => .ok (false, crawler_domain)

/-- The `for link in tqdm(links)` loop of `crawl_links`
(`src/steps/etl/crawl_links.py` lines 59-69), threading the `metadata`
dict and the `successfull_crawls` counter; an exception escaping
`_crawl_link` aborts the loop (there is no try around the loop body). -/
def crawlLoop {User : Type} (netloc : String → Except String String)
    (dispatcher : CrawlerDispatcher User) (user : User) :
    List String → Metadata → Int → Except String (Metadata × Int)
  | [], metadata, successfull_crawls => .ok (metadata, successfull_crawls)
  | link :: rest, metadata, successfull_crawls =>
    match _crawl_link netloc dispatcher link user with
    | .error e => .error e
    | .ok (successfull_crawl, crawled_domain) =>
      crawlLoop netloc dispatcher user rest
        (_add_to_metadata metadata crawled_domain successfull_crawl)
        (successfull_crawls + (if successfull_crawl then 1 else 0))

/-- `crawl_links(user, links)` from `src/steps/etl/crawl_links.py`
lines 29-85: run the loop starting from an empty metadata dict and a zero
success counter, then return the ORIGINAL `links` list (the metadata and
counter only feed the step context and the log; we expose them in the
result so their final values can be stated). -/
def crawl_links {User : Type} (netloc : String → Except String String)
    (dispatcher : CrawlerDispatcher User) (user : User) (links : List String) :
    Except String (List String × Metadata × Int) :=
  match crawlLoop netloc dispatcher user links [] 0 with
  | .error e => .error e
  | .ok (metadata, successfull_crawls) => .ok (links, metadata, successfull_crawls)

/-! ## The scroll-to-stability loop

`BaseSeleniumCrawler.scroll_page` from
`src/llm_engineering/application/crawlers/base.py` lines 134-171.  The
driver is modelled by the sequence of heights it reports: `heights 0` is
the initial `document.body.scrollHeight` read (line 148) and `heights k`
(k ≥ 1) is the read after the k-th scroll command (line 159).  The
`while True` loop can diverge, so the embedding is fuel-indexed: `none`
means the loop did not finish within `fuel` iterations.  A terminating
run returns `(number of scroll commands issued, new_height == last_height
at the break, the limit disjunct at the break)`.  `scroll_limit` is a
Python int, so `Int`, and its truthiness in
`(self.scroll_limit and current_scroll >= self.scroll_limit)` is `≠ 0`. -/

def scrollLoop (scroll_limit : Int) (heights : Nat → Int) :
    Nat → Nat → Nat → Int → Nat → Option (Nat × Bool × Bool)
  | 0, _, _, _, _ => none
  | fuel + 1, reads, current_scroll, last_height, cmds =>
    -- window.scrollTo(...): one scroll command issued, then sleep, then read
    let new_height := heights reads
    let stabilized := new_height == last_height
    let limit_hit := (!(scroll_limit == 0)) &&
      decide (scroll_limit ≤ (current_scroll : Int))
    if stabilized || limit_hit then some (cmds + 1, stabilized, limit_hit)
    else scrollLoop scroll_limit heights fuel (reads + 1) (current_scroll + 1)
      new_height (cmds + 1)

/-- `scroll_page`: `current_scroll = 0`, `last_height = heights 0`, then
the loop; the first body reads `heights 1`. -/
def scroll_page (scroll_limit : Int) (heights : Nat → Int) (fuel : Nat) :
    Option (Nat × Bool × Bool) :=
  scrollLoop scroll_limit heights fuel 1 0 (heights 0) 0

/-! ## Model of `urllib.parse.urlparse(url).netloc`

External standard-library call (imported at `crawl_links.py` line 3),
modelled from CPython's documented `urlsplit` behaviour for plain ASCII
URLs: strip a leading `scheme:` when the part before the first colon is a
nonempty run of scheme characters starting with a letter; the netloc is
then the text after a leading `//` up to the first `/`, `?` or `#`, and is
empty when the remainder does not start with `//`. -/

def isSchemeChar (c : Char) : Bool :=
  c.isAlphanum || c == '+' || c == '-' || c == '.'

/-- Split a character list at the first colon, if any. -/
def splitOnColon : List Char → Option (List Char × List Char)
  | [] => none
  | c :: rest =>
    if c == ':' then some ([], rest)
    else (splitOnColon rest).map (fun p => (c :: p.1, p.2))

/-- Drop a valid `scheme:` prefix, as CPython does before netloc
extraction. -/
def dropScheme (cs : List Char) : List Char :=
  match splitOnColon cs with
  | some (before, after) =>
    match before with
    | [] => cs
    | c0 :: restc =>
      if c0.isAlpha && (c0 :: restc).all isSchemeChar then after else cs
  | none => cs

/-- The netloc runs to the first `/`, `?` or `#`. -/
def takeNetloc : List Char → List Char
  | [] => []
  | c :: rest =>
    if c == '/' || c == '?' || c == '#' then [] else c :: takeNetloc rest

def urlparse_netloc (url : String) : String :=
  match dropScheme url.toList with
  | '/' :: '/' :: tail => String.mk (takeNetloc tail)
  | _ => ""

/-! ## Lemmas about the metrics dictionary -/

theorem lookupD_nil (d : String) : lookupD [] d = none := rfl

theorem lookupD_cons (p : String × DomainRecord) (rest : Metadata) (d : String) :
    lookupD (p :: rest) d = if p.1 == d then some p.2 else lookupD rest d := by
  simp only [lookupD, List.find?]
  by_cases h : p.1 == d
  · simp [h]
  · simp [Bool.of_not_eq_true h]

theorem lookupD_setD_self (m : Metadata) (d : String) (r : DomainRecord) :
    lookupD (setD m d r) d = some r := by
  induction m with
  | nil => simp [setD, lookupD_cons]
  | cons p rest ih =>
    by_cases h : p.1 = d
    · simp [setD, h, lookupD_cons]
    · simp [setD, h, lookupD_cons, ih]

theorem lookupD_setD_ne (m : Metadata) (d : String) (r : DomainRecord)
    (d2 : String) (hne : d2 ≠ d) :
    lookupD (setD m d r) d2 = lookupD m d2 := by
  induction m with
  | nil => simp [setD, lookupD_cons, lookupD_nil, Ne.symm hne]
  | cons p rest ih =>
    by_cases h : p.1 = d
    · simp [setD, h, lookupD_cons, Ne.symm hne]
    · by_cases h2 : p.1 = d2
      · simp [setD, h, lookupD_cons, h2, hne]
      · simp [setD, h, lookupD_cons, h2, ih]

theorem sumTotal_setD (m : Metadata) (d : String) (r : DomainRecord) :
    sumTotal (setD m d r)
      = sumTotal m + r.total - ((lookupD m d).getD ⟨0, 0⟩).total := by
  induction m with
  | nil => simp [setD, sumTotal, lookupD_nil]
  | cons p rest ih =>
    by_cases h : p.1 = d
    · simp [setD, h, sumTotal, lookupD_cons]
      ring
    · simp [setD, h, sumTotal, lookupD_cons, ih]
      ring

theorem mem_setD (m : Metadata) (d : String) (r : DomainRecord)
    (p : String × DomainRecord) (hp : p ∈ setD m d r) :
    p ∈ m ∨ p = (d, r) := by
  induction m with
  | nil =>
    simp [setD] at hp
    exact Or.inr hp
  | cons q rest ih =>
    by_cases h : q.1 = d
    · simp [setD, h] at hp
      rcases hp with hp | hp
      · exact Or.inr hp
      · exact Or.inl (List.mem_cons_of_mem _ hp)
    · simp [setD, h] at hp
      rcases hp with hp | hp
      · exact Or.inl (by simp [hp])
      · rcases ih hp with h2 | h2
        · exact Or.inl (List.mem_cons_of_mem _ h2)
        · exact Or.inr h2

theorem keys_nil : keys ([] : Metadata) = [] := rfl

theorem keys_cons (p : String × DomainRecord) (rest : Metadata) :
    keys (p :: rest) = p.1 :: keys rest := rfl

theorem lookupD_eq_none_iff (m : Metadata) (d : String) :
    lookupD m d = none ↔ d ∉ keys m := by
  induction m with
  | nil => simp [lookupD_nil, keys_nil]
  | cons p rest ih =>
    rw [lookupD_cons, keys_cons]
    by_cases h : p.1 = d
    · simp [h]
    · simp [h, Ne.symm h, ih]

theorem keys_setD_present (m : Metadata) (d : String) (r : DomainRecord)
    (hp : lookupD m d ≠ none) : keys (setD m d r) = keys m := by
  induction m with
  | nil => simp [lookupD_nil] at hp
  | cons p rest ih =>
    rw [lookupD_cons] at hp
    by_cases h : p.1 = d
    · simp [setD, h, keys_cons]
    · simp [h] at hp
      simp [setD, h, keys_cons, ih hp]

theorem keys_setD_absent (m : Metadata) (d : String) (r : DomainRecord)
    (ha : lookupD m d = none) : keys (setD m d r) = keys m ++ [d] := by
  induction m with
  | nil => simp [setD, keys_cons, keys_nil]
  | cons p rest ih =>
    rw [lookupD_cons] at ha
    by_cases h : p.1 = d
    · simp [h] at ha
    · simp [h] at ha
      simp [setD, h, keys_cons, ih ha]

/-! ## Lemmas about `_add_to_metadata` -/

theorem lookupD_add_self (m : Metadata) (d : String) (s : Bool) :
    lookupD (_add_to_metadata m d s) d
      = some ⟨((lookupD m d).getD ⟨0, 0⟩).successful + (if s then 1 else 0),
              ((lookupD m d).getD ⟨0, 0⟩).total + 1⟩ := by
  simp [_add_to_metadata, lookupD_setD_self]

theorem lookupD_add_ne (m : Metadata) (d : String) (s : Bool)
    (d2 : String) (hne : d2 ≠ d) :
    lookupD (_add_to_metadata m d s) d2 = lookupD m d2 := by
  simp [_add_to_metadata, lookupD_setD_ne _ _ _ _ hne]

theorem sumTotal_add (m : Metadata) (d : String) (s : Bool) :
    sumTotal (_add_to_metadata m d s) = sumTotal m + 1 := by
  simp [_add_to_metadata, sumTotal_setD]
  ring

theorem lookupD_mem (m : Metadata) (d : String) (r : DomainRecord)
    (h : lookupD m d = some r) : (d, r) ∈ m := by
  induction m with
  | nil => simp [lookupD_nil] at h
  | cons p rest ih =>
    obtain ⟨k, v⟩ := p
    rw [lookupD_cons] at h
    by_cases hk : k = d
    · simp [hk] at h
      simp [hk, h]
    · simp [hk] at h
      exact List.mem_cons_of_mem _ (ih h)

theorem WF_add (m : Metadata) (d : String) (s : Bool) (hwf : WF m) :
    WF (_add_to_metadata m d s) := by
  obtain ⟨hnd, hrec⟩ := hwf
  constructor
  · rw [_add_to_metadata]
    rcases h : lookupD m d with _ | r
    · rw [keys_setD_absent _ _ _ h]
      have hd : d ∉ keys m := (lookupD_eq_none_iff m d).mp h
      simp [List.nodup_append, hnd, hd]
    · rw [keys_setD_present _ _ _ (by simp [h])]
      exact hnd
  · intro p hp
    rw [_add_to_metadata] at hp
    rcases mem_setD _ _ _ _ hp with h2 | h2
    · exact hrec p h2
    · subst h2
      rcases h : lookupD m d with _ | r
      · simp [h]
        by_cases hs : s <;> simp [hs]
      · have hr := hrec (d, r) (lookupD_mem m d r h)
        simp [h] at hr ⊢
        by_cases hs : s <;> simp [hs] <;> constructor <;> omega

/-! ## Lemmas about `_crawl_link` and the orchestration loop -/

theorem _crawl_link_ok_netloc {User : Type} (netloc : String → Except String String)
    (dispatcher : CrawlerDispatcher User) (link : String) (user : User)
    (b : Bool) (d : String)
    (h : _crawl_link netloc dispatcher link user = .ok (b, d)) :
    netloc link = .ok d := by
  rw [_crawl_link] at h
  split at h
  · cases h
  · split at h
    · cases h
    · split at h <;> simp_all

theorem _crawl_link_extract_error {User : Type}
    (netloc : String → Except String String)
    (dispatcher : CrawlerDispatcher User) (link : String) (user : User)
    (c : Crawler User) (d e : String)
    (hg : dispatcher.get_crawler link = .ok c)
    (hn : netloc link = .ok d)
    (he : c.extract link user = .error e) :
    _crawl_link netloc dispatcher link user = .ok (false, d) := by
  simp [_crawl_link, hg, hn, he]

theorem _crawl_link_resolution_error {User : Type}
    (netloc : String → Except String String)
    (dispatcher : CrawlerDispatcher User) (link : String) (user : User)
    (e : String) (hg : dispatcher.get_crawler link = .error e) :
    _crawl_link netloc dispatcher link user = .error e := by
  simp [_crawl_link, hg]

theorem _crawl_link_ok_exists {User : Type}
    (netloc : String → Except String String)
    (dispatcher : CrawlerDispatcher User) (link : String) (user : User)
    (c : Crawler User) (d : String)
    (hg : dispatcher.get_crawler link = .ok c)
    (hn : netloc link = .ok d) :
    ∃ b, _crawl_link netloc dispatcher link user = .ok (b, d) := by
  rcases he : c.extract link user with e2 | u
  · exact ⟨false, by simp [_crawl_link, hg, hn, he]⟩
  · exact ⟨true, by simp [_crawl_link, hg, hn, he]⟩

theorem crawlLoop_ok_inv {User : Type} (netloc : String → Except String String)
    (dispatcher : CrawlerDispatcher User) (user : User) (links : List String)
    (m0 : Metadata) (n0 : Int) (m : Metadata) (n : Int)
    (h : crawlLoop netloc dispatcher user links m0 n0 = .ok (m, n))
    (hwf : WF m0) :
    WF m ∧ sumTotal m = sumTotal m0 + links.length := by
  induction links generalizing m0 n0 with
  | nil =>
    rw [crawlLoop] at h
    cases h
    simpa using hwf
  | cons link rest ih =>
    rw [crawlLoop] at h
    rcases hc : _crawl_link netloc dispatcher link user with e | bd <;>
      rw [hc] at h
    · cases h
    · obtain ⟨b, d⟩ := bd
      have := ih _ _ h (WF_add _ _ _ hwf)
      rcases this with ⟨h1, h2⟩
      refine ⟨h1, ?_⟩
      rw [h2, sumTotal_add]
      simp
      ring

theorem crawlLoop_ok_exists {User : Type} (netloc : String → Except String String)
    (dispatcher : CrawlerDispatcher User) (user : User) (links : List String)
    (m0 : Metadata) (n0 : Int)
    (hres : ∀ l ∈ links, ∃ c, dispatcher.get_crawler l = .ok c)
    (hnet : ∀ l ∈ links, ∃ d, netloc l = .ok d) :
    ∃ m n, crawlLoop netloc dispatcher user links m0 n0 = .ok (m, n) := by
  induction links generalizing m0 n0 with
  | nil => exact ⟨m0, n0, rfl⟩
  | cons link rest ih =>
    obtain ⟨c, hc⟩ := hres link (List.mem_cons_self _ _)
    obtain ⟨d, hd⟩ := hnet link (List.mem_cons_self _ _)
    obtain ⟨b, hb⟩ := _crawl_link_ok_exists netloc dispatcher link user c d hc hd
    rw [crawlLoop, hb]
    exact ih (_add_to_metadata m0 d b) (n0 + if b then 1 else 0)
      (fun l hl => hres l (List.mem_cons_of_mem _ hl))
      (fun l hl => hnet l (List.mem_cons_of_mem _ hl))

theorem crawlLoop_error_head {User : Type} (netloc : String → Except String String)
    (dispatcher : CrawlerDispatcher User) (user : User)
    (link : String) (rest : List String) (m0 : Metadata) (n0 : Int) (e : String)
    (h : _crawl_link netloc dispatcher link user = .error e) :
    crawlLoop netloc dispatcher user (link :: rest) m0 n0 = .error e := by
  rw [crawlLoop, h]

/-! ## Lemmas about the scroll loop -/

theorem scrollLoop_bounded (scroll_limit : Int) (heights : Nat → Int)
    (hl : 1 ≤ scroll_limit) :
    ∀ (fuel reads current_scroll : Nat) (last_height : Int) (cmds : Nat),
      current_scroll ≤ scroll_limit.toNat →
      scroll_limit.toNat + 1 ≤ current_scroll + fuel →
      ∃ n st lh,
        scrollLoop scroll_limit heights fuel reads current_scroll
          last_height cmds = some (n, st, lh) ∧
        n ≤ cmds + (scroll_limit.toNat + 1 - current_scroll) := by
  intro fuel
  induction fuel with
  | zero =>
    intro reads cs last cmds h1 h2
    exfalso
    omega
  | succ fuel ih =>
    intro reads cs last cmds h1 h2
    simp only [scrollLoop]
    by_cases hb : ((heights reads == last) ||
        ((!(scroll_limit == 0)) && decide (scroll_limit ≤ (cs : Int)))) = true
    · rw [if_pos hb]
      exact ⟨cmds + 1, _, _, rfl, by omega⟩
    · rw [if_neg hb]
      have hne : (scroll_limit == 0) = false := by
        rw [beq_eq_false_iff_ne]
        omega
      have hst : ¬ (scroll_limit ≤ (cs : Int)) := by
        intro hx
        exact hb (by simp [hne, hx])
      have hcs2 : cs < scroll_limit.toNat := by omega
      obtain ⟨n, st, lh, hrun, hbound⟩ :=
        ih (reads + 1) (cs + 1) (heights reads) (cmds + 1) (by omega) (by omega)
      exact ⟨n, st, lh, hrun, by omega⟩

theorem scrollLoop_zero_limit_spec (heights : Nat → Int) :
    ∀ (fuel reads current_scroll : Nat) (last_height : Int) (cmds : Nat)
      (n : Nat) (st lh : Bool),
      scrollLoop 0 heights fuel reads current_scroll last_height cmds
        = some (n, st, lh) →
      st = true ∧ lh = false ∧ cmds + 1 ≤ n := by
  intro fuel
  induction fuel with
  | zero =>
    intro reads cs last cmds n st lh h
    cases h
  | succ fuel ih =>
    intro reads cs last cmds n st lh h
    by_cases hb : (heights reads == last) = true
    · simp [scrollLoop, hb] at h
      obtain ⟨hn, hst, hlh⟩ := h
      refine ⟨hst, hlh, by omega⟩
    · simp [scrollLoop, hb] at h
      obtain ⟨h1, h2, h3⟩ := ih (reads + 1) (cs + 1) (heights reads) (cmds + 1)
        n st lh h
      exact ⟨h1, h2, by omega⟩

theorem scrollLoop_zero_limit_diverges (heights : Nat → Int)
    (hmono : ∀ i, heights i < heights (i + 1)) :
    ∀ (fuel reads current_scroll : Nat) (cmds : Nat),
      scrollLoop 0 heights fuel (reads + 1) current_scroll (heights reads) cmds
        = none := by
  intro fuel
  induction fuel with
  | zero => intro reads cs cmds; rfl
  | succ fuel ih =>
    intro reads cs cmds
    have hb : (heights (reads + 1) == heights reads) = false := by
      rw [beq_eq_false_iff_ne]
      have := hmono reads
      omega
    simp [scrollLoop, hb]
    exact ih (reads + 1) (cs + 1) (cmds + 1)

theorem recLe_refl (a : Option DomainRecord) : recLe a a := by
  cases a
  · trivial
  · exact ⟨le_refl _, le_refl _⟩

theorem recLe_add (m : Metadata) (d : String) (s : Bool) (d2 : String) :
    recLe (lookupD m d2) (lookupD (_add_to_metadata m d s) d2) := by
  by_cases h : d2 = d
  · subst h
    rcases hl : lookupD m d2 with _ | r
    · trivial
    · rw [lookupD_add_self, hl]
      constructor
      · by_cases hs : s <;> simp [hs]
      · simp only [Option.getD_some]
        omega
  · rw [lookupD_add_ne m d s d2 h]
    exact recLe_refl _

/-- A Python call that did not raise, in the `Except` model. -/
def isOkE {ε α : Type} : Except ε α → Bool
  | .ok _ => true
  | .error _ => false

theorem crawl_links_ok_elim {User : Type} (netloc : String → Except String String)
    (dispatcher : CrawlerDispatcher User) (user : User) (links ls : List String)
    (mf : Metadata) (n : Int)
    (h : crawl_links netloc dispatcher user links = .ok (ls, mf, n)) :
    ls = links ∧ crawlLoop netloc dispatcher user links [] 0 = .ok (mf, n) := by
  rw [crawl_links] at h
  split at h
  · cases h
  · rename_i mdata scount heq
    injection h with h2
    injection h2 with hls h3
    injection h3 with hm hn
    subst hm
    subst hn
    exact ⟨hls.symm, heq⟩

theorem crawlLoop_append {User : Type} (netloc : String → Except String String)
    (dispatcher : CrawlerDispatcher User) (user : User)
    (l1 l2 : List String) (m0 : Metadata) (n0 : Int) :
    crawlLoop netloc dispatcher user (l1 ++ l2) m0 n0
      = match crawlLoop netloc dispatcher user l1 m0 n0 with
        | .error e => .error e
        | .ok (m, n) => crawlLoop netloc dispatcher user l2 m n := by
  induction l1 generalizing m0 n0 with
  | nil => simp [crawlLoop]
  | cons link rest ih =>
    rcases hc : _crawl_link netloc dispatcher link user with e | bd
    · simp [crawlLoop, hc]
    · obtain ⟨b, d⟩ := bd
      simp [crawlLoop, hc]
      exact ih _ _

/-! ## Test fixtures: a concrete environment for the witnesses -/

/-- The model of the imported `urlparse(link).netloc` call, which does not
raise on any of the plain-string inputs used below. -/
def pyNetloc : String → Except String String := fun l => .ok (urlparse_netloc l)

/-- A crawler whose `extract` raises exactly on one URL. -/
def testCrawler : Crawler Unit :=
  ⟨fun link _ =>
    if link == "https://bad.example.com/post" then .error "extraction failed"
    else .ok ()⟩

/-- A dispatcher that always resolves a crawler. -/
def testDispatcher : CrawlerDispatcher Unit := ⟨fun _ => .ok testCrawler⟩

/-- A dispatcher whose `get_crawler` raises on one URL. -/
def failingDispatcher : CrawlerDispatcher Unit :=
  ⟨fun link =>
    if link == "https://bad.example.com/post" then .error "no crawler"
    else .ok testCrawler⟩

def testLinks : List String :=
  ["https://ok.example.com/a", "https://bad.example.com/post", "not a url"]

/-- The metrics dict produced by running `crawl_links` on `testLinks`. -/
def testMetrics : Metadata :=
  [("ok.example.com", ⟨1, 1⟩), ("bad.example.com", ⟨0, 1⟩), ("", ⟨1, 1⟩)]

/-! ## Claim theorems -/

/-- Claim C1: for every batch whose URLs all resolve a crawler and parse a
netloc, an exception raised by `crawler.extract` is caught inside
`_crawl_link` (never re-raised) and recorded as the failed outcome
`(False, domain)`; the loop keeps processing every URL of the batch (the
totals of the final metrics sum to the batch length) and `crawl_links`
itself returns normally with the input list. -/
theorem crawl_links_extract_failure_isolated {User : Type}
    (netloc : String → Except String String)
    (dispatcher : CrawlerDispatcher User) (user : User) (links : List String)
    (hres : ∀ l ∈ links, ∃ c, dispatcher.get_crawler l = .ok c)
    (hnet : ∀ l ∈ links, ∃ d, netloc l = .ok d) :
    isOkE (crawl_links netloc dispatcher user links) = true ∧
    (∀ ls m n, crawl_links netloc dispatcher user links = .ok (ls, m, n) →
      ls = links ∧ sumTotal m = links.length) ∧
    (∀ (link : String) (c : Crawler User) (d e : String),
      dispatcher.get_crawler link = .ok c → netloc link = .ok d →
      c.extract link user = .error e →
      _crawl_link netloc dispatcher link user = .ok (false, d)) := by
  obtain ⟨m, n, hm⟩ := crawlLoop_ok_exists netloc dispatcher user links [] 0 hres hnet
  refine ⟨?_, ?_, ?_⟩
  · rw [crawl_links, hm]
    rfl
  · intro ls m2 n2 h2
    obtain ⟨hls, hloop⟩ := crawl_links_ok_elim netloc dispatcher user links ls m2 n2 h2
    have hinv := crawlLoop_ok_inv netloc dispatcher user links [] 0 m2 n2 hloop
      ⟨by simp [keys_nil], by simp⟩
    exact ⟨hls, by simpa [sumTotal] using hinv.2⟩
  · intro link c d e hg hn he
    exact _crawl_link_extract_error netloc dispatcher link user c d e hg hn he

/-- Witness for C1 at a concrete environment in which the middle URL's
`extract` raises: the run still returns normally, all three URLs are
counted, and the raising URL is recorded as a failure. -/
theorem crawl_links_extract_failure_isolated_witness :
    isOkE (crawl_links pyNetloc testDispatcher () testLinks) = true ∧
    (testLinks = testLinks ∧ sumTotal testMetrics = testLinks.length) ∧
    _crawl_link pyNetloc testDispatcher "https://bad.example.com/post" ()
      = .ok (false, "bad.example.com") := by
  have h := crawl_links_extract_failure_isolated pyNetloc testDispatcher () testLinks
    (fun l _ => ⟨testCrawler, rfl⟩) (fun l _ => ⟨urlparse_netloc l, rfl⟩)
  exact ⟨h.1, h.2.1 testLinks testMetrics 2 (by rfl),
    h.2.2 "https://bad.example.com/post" testCrawler "bad.example.com"
      "extraction failed" rfl rfl rfl⟩

/-- Counterexample to claim C2: `dispatcher.get_crawler` is called BEFORE
the `try` block of `_crawl_link` (crawl_links.py line 103 vs line 109), so
when it raises, the exception propagates out of `crawl_links`: the run
raises instead of recording a failed job and continuing with the rest of
the batch. -/
theorem crawl_links_resolution_failure_aborts_cx :
    crawl_links pyNetloc failingDispatcher ()
      ["https://bad.example.com/post", "https://ok.example.com/a"]
      = .error "no crawler" := by rfl

/-- Claim C2 amended: when `dispatcher.get_crawler` raises on a URL (after
any prefix of URLs that resolve and parse normally), the exception
propagates out of `_crawl_link` and out of `crawl_links`, aborting the
batch; no fallback domain string is derived for that URL. Only exceptions
raised by `crawler.extract` are contained. -/
theorem crawl_links_resolution_failure_propagates {User : Type}
    (netloc : String → Except String String)
    (dispatcher : CrawlerDispatcher User) (user : User)
    (pre rest : List String) (link : String) (e : String)
    (hres : ∀ l ∈ pre, ∃ c, dispatcher.get_crawler l = .ok c)
    (hnet : ∀ l ∈ pre, ∃ d, netloc l = .ok d)
    (hg : dispatcher.get_crawler link = .error e) :
    crawl_links netloc dispatcher user (pre ++ link :: rest) = .error e := by
  obtain ⟨m, n, hm⟩ := crawlLoop_ok_exists netloc dispatcher user pre [] 0 hres hnet
  have h1 : crawlLoop netloc dispatcher user (pre ++ link :: rest) [] 0
      = .error e := by
    rw [crawlLoop_append, hm]
    exact crawlLoop_error_head netloc dispatcher user link rest m n e
      (_crawl_link_resolution_error netloc dispatcher link user e hg)
  rw [crawl_links, h1]

/-- Witness for the amended C2: a good URL followed by one on which
`get_crawler` raises makes the whole run raise. -/
theorem crawl_links_resolution_failure_propagates_witness :
    crawl_links pyNetloc failingDispatcher ()
      (["https://ok.example.com/a"] ++ "https://bad.example.com/post" :: [])
      = .error "no crawler" := by
  apply crawl_links_resolution_failure_propagates
  · intro l hl
    simp only [List.mem_singleton] at hl
    subst hl
    exact ⟨testCrawler, rfl⟩
  · intro l _
    exact ⟨urlparse_netloc l, rfl⟩
  · rfl

/-- Claim C3: whenever `crawl_links` returns, the returned list is exactly
the input list of links, unmodified. -/
theorem crawl_links_returns_input_links {User : Type}
    (netloc : String → Except String String)
    (dispatcher : CrawlerDispatcher User) (user : User) (links ls : List String)
    (m : Metadata) (n : Int)
    (h : crawl_links netloc dispatcher user links = .ok (ls, m, n)) :
    ls = links :=
  (crawl_links_ok_elim netloc dispatcher user links ls m n h).1

/-- Witness for C3 on the concrete test run. -/
theorem crawl_links_returns_input_links_witness :
    (["https://ok.example.com/a", "https://bad.example.com/post", "not a url"]
      : List String) = testLinks :=
  crawl_links_returns_input_links pyNetloc testDispatcher () testLinks
    ["https://ok.example.com/a", "https://bad.example.com/post", "not a url"]
    testMetrics 2 (by rfl)

/-- Claim C4: every `_add_to_metadata` step preserves the metrics
invariant (`0 ≤ successful ≤ total` per domain, distinct keys), adds
exactly 1 to the sum of the totals, and never decreases any domain's
counters; at the end of any completed run the final metrics satisfy the
invariant and the totals sum to the number of input URLs. -/
theorem domain_metrics_invariants {User : Type}
    (m : Metadata) (d : String) (s : Bool) (hwf : WF m)
    (netloc : String → Except String String)
    (dispatcher : CrawlerDispatcher User) (user : User)
    (links ls : List String) (mf : Metadata) (n : Int)
    (hrun : crawl_links netloc dispatcher user links = .ok (ls, mf, n)) :
    (WF (_add_to_metadata m d s) ∧
     sumTotal (_add_to_metadata m d s) = sumTotal m + 1 ∧
     ∀ d2, recLe (lookupD m d2) (lookupD (_add_to_metadata m d s) d2)) ∧
    (WF mf ∧ sumTotal mf = links.length) := by
  refine ⟨⟨WF_add m d s hwf, sumTotal_add m d s, fun d2 => recLe_add m d s d2⟩, ?_⟩
  obtain ⟨hls, hloop⟩ := crawl_links_ok_elim netloc dispatcher user links ls mf n hrun
  have hinv := crawlLoop_ok_inv netloc dispatcher user links [] 0 mf n hloop
    ⟨by simp [keys_nil], by simp⟩
  exact ⟨hinv.1, by simpa [sumTotal] using hinv.2⟩

/-- Witness for C4: one concrete update step on the concrete run's final
metrics, plus the run-end facts for the test batch. -/
theorem domain_metrics_invariants_witness :
    (WF (_add_to_metadata testMetrics "ok.example.com" false) ∧
     sumTotal (_add_to_metadata testMetrics "ok.example.com" false)
       = sumTotal testMetrics + 1 ∧
     recLe (lookupD testMetrics "ok.example.com")
       (lookupD (_add_to_metadata testMetrics "ok.example.com" false)
         "ok.example.com")) ∧
    (WF testMetrics ∧ sumTotal testMetrics = testLinks.length) := by
  have h := domain_metrics_invariants testMetrics "ok.example.com" false
    ⟨by decide, by decide⟩ pyNetloc testDispatcher () testLinks testLinks
    testMetrics 2 (by rfl)
  exact ⟨⟨h.1.1, h.1.2.1, h.1.2.2 "ok.example.com"⟩, h.2⟩

/-- Claim C9: `_add_to_metadata m d s` changes only the entry for `d` — it
leaves the record of every other domain unchanged, and at `d` it adds 1 to
`total` and `(if s then 1 else 0)` to `successful`, creating the record
with those values when `d` was absent. -/
theorem add_to_metadata_frame (m : Metadata) (d : String) (s : Bool) :
    (∀ d2, d2 ≠ d → lookupD (_add_to_metadata m d s) d2 = lookupD m d2) ∧
    (∀ r, lookupD m d = some r →
      lookupD (_add_to_metadata m d s) d
        = some ⟨r.successful + (if s then 1 else 0), r.total + 1⟩) ∧
    (lookupD m d = none →
      lookupD (_add_to_metadata m d s) d = some ⟨if s then 1 else 0, 1⟩) := by
  refine ⟨fun d2 h => lookupD_add_ne m d s d2 h, fun r hr => ?_, fun hn => ?_⟩
  · rw [lookupD_add_self, hr]
    rfl
  · rw [lookupD_add_self, hn]
    simp

/-- Witness for C9 on a concrete dict: updating a fresh domain leaves the
existing domain's record untouched and creates the new record. -/
theorem add_to_metadata_frame_witness :
    lookupD (_add_to_metadata [("a", ⟨1, 2⟩)] "b" true) "a"
      = lookupD [("a", ⟨1, 2⟩)] "a" ∧
    lookupD (_add_to_metadata [("a", ⟨1, 2⟩)] "b" true) "b" = some ⟨1, 1⟩ :=
  ⟨(add_to_metadata_frame [("a", ⟨1, 2⟩)] "b" true).1 "a" (by decide),
   (add_to_metadata_frame [("a", ⟨1, 2⟩)] "b" true).2.2 (by rfl)⟩

/-- Claim C10: the domain string attached to every outcome — and hence the
metrics key each link is counted under (the loop updates the dict at
exactly that key) — is precisely the `netloc` of the link as returned by
the `urlparse` model; in particular `urlparse_netloc "not a url" = ""`, so
every link without a network location is grouped under the single
empty-string key. -/
theorem metrics_key_is_netloc {User : Type} :
    (∀ (netloc : String → Except String String)
       (dispatcher : CrawlerDispatcher User) (user : User)
       (link : String) (b : Bool) (d : String),
       _crawl_link netloc dispatcher link user = .ok (b, d) →
       netloc link = .ok d) ∧
    (∀ (netloc : String → Except String String)
       (dispatcher : CrawlerDispatcher User) (user : User)
       (link : String) (rest : List String) (m : Metadata) (n : Int)
       (b : Bool) (d : String),
       _crawl_link netloc dispatcher link user = .ok (b, d) →
       crawlLoop netloc dispatcher user (link :: rest) m n
         = crawlLoop netloc dispatcher user rest (_add_to_metadata m d b)
             (n + if b then 1 else 0)) ∧
    urlparse_netloc "not a url" = "" := by
  refine ⟨?_, ?_, rfl⟩
  · intro netloc dispatcher user link b d h
    exact _crawl_link_ok_netloc netloc dispatcher link user b d h
  · intro netloc dispatcher user link rest m n b d h
    simp [crawlLoop, h]

/-- Witness for C10: on the concrete environment, the outcome domain of
the unparsable link "not a url" is the empty string. -/
theorem metrics_key_is_netloc_witness :
    pyNetloc "not a url" = .ok "" :=
  (@metrics_key_is_netloc Unit).1 pyNetloc testDispatcher ()
    "not a url" true "" (by rfl)

/-- Claim C5: with the default scroll limit 5 and successive height
readings 100, 150, 150, `scroll_page` issues exactly 2 scroll commands and
breaks on the stability condition (`new_height == last_height`), the limit
disjunct being false at the break. -/
theorem scroll_page_stabilizes_before_limit (heights : Nat → Int) (fuel : Nat)
    (h0 : heights 0 = 100) (h1 : heights 1 = 150) (h2 : heights 2 = 150)
    (hf : 2 ≤ fuel) :
    scroll_page 5 heights fuel = some (2, true, false) := by
  obtain ⟨k, rfl⟩ : ∃ k, fuel = k + 2 := ⟨fuel - 2, by omega⟩
  have e1 : ((150 : Int) == 100) = false := by decide
  have e2 : ((150 : Int) == 150) = true := by decide
  simp [scroll_page, scrollLoop, h0, h1, h2, e1, e2]

/-- Witness for C5: a concrete page with height readings 100, 150, 150,
run with more than enough fuel. -/
theorem scroll_page_stabilizes_before_limit_witness :
    scroll_page 5 (fun i => if i == 0 then 100 else 150) 6
      = some (2, true, false) :=
  scroll_page_stabilizes_before_limit (fun i => if i == 0 then 100 else 150) 6
    rfl rfl rfl (by decide)

/-- Counterexample to claim C6: with `scroll_limit = 2` and strictly
increasing heights, the loop issues 3 scroll commands, not 2 — the limit
check `current_scroll >= scroll_limit` runs only AFTER each scroll, and
`current_scroll` is incremented only on iterations that do not break, so
the loop body executes `scroll_limit + 1` times. -/
theorem scroll_limit_two_three_commands_cx :
    scroll_page 2 (fun i => (i : Int)) 10 = some (3, false, true) ∧
    (3 : Nat) ≠ 2 :=
  ⟨rfl, by decide⟩

/-- Claim C6 amended: with `scroll_limit = 2` and a page whose height
strictly increases at every reading, `scroll_page` issues exactly 3
(that is, `scroll_limit + 1`) scroll commands and stops because the limit
disjunct fired, with the height still changing. -/
theorem scroll_page_limit_two_growing (heights : Nat → Int) (fuel : Nat)
    (hinc : ∀ i, heights i < heights (i + 1)) (hf : 3 ≤ fuel) :
    scroll_page 2 heights fuel = some (3, false, true) := by
  obtain ⟨k, rfl⟩ : ∃ k, fuel = k + 3 := ⟨fuel - 3, by omega⟩
  have e1 : (heights 1 == heights 0) = false := by
    rw [beq_eq_false_iff_ne]
    have h := hinc 0
    norm_num at h
    omega
  have e2 : (heights 2 == heights 1) = false := by
    rw [beq_eq_false_iff_ne]
    have h := hinc 1
    norm_num at h
    omega
  have e3 : (heights 3 == heights 2) = false := by
    rw [beq_eq_false_iff_ne]
    have h := hinc 2
    norm_num at h
    omega
  simp [scroll_page, scrollLoop, e1, e2, e3]

/-- Witness for the amended C6: the strictly increasing page `heights i = i`. -/
theorem scroll_page_limit_two_growing_witness :
    scroll_page 2 (fun i => (i : Int)) 12 = some (3, false, true) :=
  scroll_page_limit_two_growing (fun i => (i : Int)) 12
    (fun i => by norm_num) (by decide)

/-- Counterexample to claim C7: with `scroll_limit = 0` the loop body
still runs — on a constant-height page it issues 1 scroll command (not 0)
before the stability check fires. `0` is falsy in
`self.scroll_limit and current_scroll >= self.scroll_limit`, so the limit
disjunct is disabled, not an immediate stop. -/
theorem scroll_limit_zero_scrolls_cx :
    scroll_page 0 (fun _ => (100 : Int)) 10 = some (1, true, false) ∧
    (1 : Nat) ≠ 0 :=
  ⟨rfl, by decide⟩

/-- Claim C7 amended: `scroll_limit = 0` disables the limit check (Python
truthiness of 0), i.e. it means "unlimited", not "no scrolling": whenever
`scroll_page 0` returns it has issued at least one scroll command and
stopped only because the height stabilized (the limit flag is never the
break reason), and on a page whose height strictly grows forever the loop
never terminates (it returns `none` for every fuel). -/
theorem scroll_limit_zero_unlimited :
    (∀ (heights : Nat → Int) (fuel n : Nat) (st lh : Bool),
      scroll_page 0 heights fuel = some (n, st, lh) →
      st = true ∧ lh = false ∧ 1 ≤ n) ∧
    (∀ (heights : Nat → Int), (∀ i, heights i < heights (i + 1)) →
      ∀ fuel, scroll_page 0 heights fuel = none) := by
  constructor
  · intro heights fuel n st lh h
    have h2 := scrollLoop_zero_limit_spec heights fuel 1 0 (heights 0) 0 n st lh h
    exact ⟨h2.1, h2.2.1, by omega⟩
  · intro heights hmono fuel
    exact scrollLoop_zero_limit_diverges heights hmono fuel 0 0 0

/-- Witness for the amended C7: with limit 0 a strictly growing page makes
the loop spin past any fuel bound. -/
theorem scroll_limit_zero_unlimited_witness :
    scroll_page 0 (fun i => (i : Int)) 25 = none :=
  scroll_limit_zero_unlimited.2 (fun i => (i : Int))
    (fun i => by norm_num) 25

/-- Counterexample to claim C8: with `scroll_limit = 1` and strictly
increasing heights the loop issues 2 scroll commands — the number of
scroll commands is NOT bounded by the scroll limit (and with
`scroll_limit = 0` the loop need not terminate at all, see the amended
C7). -/
theorem scroll_page_exceeds_limit_cx :
    scroll_page 1 (fun i => (i : Int)) 10 = some (2, false, true) ∧
    ¬((2 : Int) ≤ 1) :=
  ⟨rfl, by decide⟩

/-- Claim C8 amended: for every `scroll_limit ≥ 1` and every height
sequence, `scroll_page` terminates (within `scroll_limit + 1` loop
iterations, so any fuel of at least `scroll_limit + 1` returns `some`),
and the number of scroll commands it issues is bounded by
`scroll_limit + 1`. -/
theorem scroll_page_terminates_bounded (scroll_limit : Int)
    (heights : Nat → Int) (fuel : Nat)
    (hl : 1 ≤ scroll_limit) (hfuel : scroll_limit.toNat + 1 ≤ fuel) :
    (scroll_page scroll_limit heights fuel).isSome = true ∧
    ∀ n st lh, scroll_page scroll_limit heights fuel = some (n, st, lh) →
      (n : Int) ≤ scroll_limit + 1 := by
  obtain ⟨n, st, lh, hrun, hb⟩ :=
    scrollLoop_bounded scroll_limit heights hl fuel 1 0 (heights 0) 0
      (by omega) (by omega)
  have hpage : scroll_page scroll_limit heights fuel = some (n, st, lh) := hrun
  constructor
  · rw [hpage]
    rfl
  · intro n2 st2 lh2 h2
    rw [hpage] at h2
    injection h2 with h3
    injection h3 with hn h4
    subst hn
    omega

/-- Witness for the amended C8: limit 2 with a constant page, fuel 3. -/
theorem scroll_page_terminates_bounded_witness :
    (scroll_page 2 (fun _ => (100 : Int)) 3).isSome = true ∧
    ((1 : Nat) : Int) ≤ 2 + 1 := by
  have h := scroll_page_terminates_bounded 2 (fun _ => (100 : Int)) 3
    (by decide) (by decide)
  exact ⟨h.1, h.2 1 true false (by rfl)⟩

end LLMSTwin
